import Mathlib

/-!
Verification of the paired-sample mean-difference significance test described
in the textbook's t-test lesson.  The notebook itself only calls the external
routines `stats.ttest_rel` and `stats.ttest_1samp`; the procedure those calls
perform is documented in the design specification (component 4.1), and the
definitions below embed that procedure over the reals, with IEEE-style
sentinel values (`pinf`, `ninf`, `nan`) for the zero-variance edge cases and
an abstract Student-t survival function (the t-distribution CDF is not
implemented anywhere in the repository).
-/

namespace TTest

/-- Modelled from the spec: an extended real value as produced by the
floating-point computation — either a finite real, positive or negative
infinity, or NaN.  The spec's error-handling design mandates these IEEE-754
special values for the zero-variance edge cases. -/
inductive RVal where
  | fin (x : ℝ)
  | pinf
  | ninf
  | nan

/-- Modelled from the spec: the `InvalidInput` error taxonomy (mismatched
lengths, fewer than two observations). -/
inductive TTestError where
  | invalidInput
deriving DecidableEq

/-- Modelled from the spec: an abstract Student-t survival function
`sf df x = P(T_df > x)`.  The repository does not implement the
t-distribution; the spec's design notes call it the one nontrivial numerical
subroutine that must be supplied externally.  We record exactly the
properties of the upper-tail probability of a continuous distribution
symmetric about zero: values are nonnegative, antitone in the threshold, and
complementary under reflection. -/
structure TDistSF where
  sf : ℕ → ℝ → ℝ
  nonneg : ∀ d x, 0 ≤ sf d x
  anti : ∀ d, Antitone (sf d)
  compl : ∀ d x, sf d (-x) = 1 - sf d x

/-- Modelled from the spec: the elementwise difference sequence
`D_i = A_i - B_i` of a paired sample. -/
noncomputable def diffs (A B : List ℝ) : List ℝ :=
  List.zipWith (fun a b => a - b) A B

/-- Modelled from the spec: the arithmetic mean of a sequence. -/
noncomputable def mean (D : List ℝ) : ℝ :=
  D.sum / (D.length : ℝ)

/-- Modelled from the spec: the sample variance with Bessel's correction —
the sum of squared deviations from the mean divided by `n - 1`. -/
noncomputable def sampleVar (D : List ℝ) : ℝ :=
  (D.map (fun x => (x - mean D) ^ 2)).sum / ((D.length : ℝ) - 1)

/-- Modelled from the spec: IEEE-754 division semantics over the reals — a
nonzero numerator over zero gives a signed infinity, zero over zero gives
NaN, and otherwise the quotient is finite. -/
noncomputable def specDiv (a b : ℝ) : RVal :=
  if b = 0 then
    if 0 < a then RVal.pinf else if a < 0 then RVal.ninf else RVal.nan
  else
    RVal.fin (a / b)

/-- Modelled from the spec: the paired-test statistic
`t = mean(D) / sqrt(sampleVar(D) / n)`, computed the way the external
routine computes it (denominator `sqrt(v / n)`, which equals the spec's
`stddev / sqrt n`). -/
noncomputable def tVal (D : List ℝ) : RVal :=
  specDiv (mean D) (Real.sqrt (sampleVar D / (D.length : ℝ)))

/-- Modelled from the spec: the two-tailed probability attached to a
statistic: `2 * sf df |t|` for finite `t`, zero for an infinite statistic,
and NaN propagated from an undefined statistic. -/
noncomputable def pVal (S : TDistSF) (df : ℕ) : RVal → RVal
  | RVal.fin t => RVal.fin (2 * S.sf df |t|)
  | RVal.pinf => RVal.fin 0
  | RVal.ninf => RVal.fin 0
  | RVal.nan => RVal.nan

/-- Modelled from the spec: the two-sample paired procedure
(`stats.ttest_rel` in the notebook).  It fails with `InvalidInput` on
mismatched lengths or fewer than two observations, and otherwise returns the
statistic on the difference sequence together with its two-tailed
probability at `df = n - 1`. -/
noncomputable def ttest_rel (S : TDistSF) (A B : List ℝ) :
    Except TTestError (RVal × RVal) :=
  if A.length ≠ B.length ∨ A.length < 2 then
    Except.error TTestError.invalidInput
  else
    let D := diffs A B
    Except.ok (tVal D, pVal S (D.length - 1) (tVal D))

/-- Modelled from the spec: the one-sample procedure (`stats.ttest_1samp` in
the notebook), testing a sequence against a reference value.  It fails with
`InvalidInput` on fewer than two observations, and otherwise returns
`t = (mean(D) - ref) / sqrt(sampleVar(D) / n)` with its two-tailed
probability at `df = n - 1`. -/
noncomputable def ttest_1samp (S : TDistSF) (D : List ℝ) (ref : ℝ) :
    Except TTestError (RVal × RVal) :=
  if D.length < 2 then
    Except.error TTestError.invalidInput
  else
    let t := specDiv (mean D - ref) (Real.sqrt (sampleVar D / (D.length : ℝ)))
    Except.ok (t, pVal S (D.length - 1) t)

/-- Negation on extended values: negates a finite value and swaps the signed
infinities; NaN is fixed. -/
noncomputable def negV : RVal → RVal
  | RVal.fin x => RVal.fin (-x)
  | RVal.pinf => RVal.ninf
  | RVal.ninf => RVal.pinf
  | RVal.nan => RVal.nan

/-- Reordering of a list by a permutation given as a list of indices
(a permutation of `List.range n`): element `i` of the result is element
`σ i` of the input. -/
noncomputable def applyPerm (σ : List ℕ) (A : List ℝ) : List ℝ :=
  σ.map (fun i => A.getD i 0)

/-- Modelled from the spec: identifier-aligned subtraction of two keyed
series, as pandas performs when subtracting two Series indexed by
participant ID — each value of the left series has the value with the same
key in the right series subtracted from it, independently of row order. -/
noncomputable def alignedSub (P Q : List (String × ℝ)) : List ℝ :=
  P.map (fun kv => kv.2 - ((Q.lookup kv.1).getD 0))

/-- A concrete instance of the abstract survival-function interface, used to
instantiate witnesses. -/
noncomputable def trivSF : TDistSF where
  sf := fun _ _ => 1 / 2
  nonneg := fun _ _ => by norm_num
  anti := fun _ => antitone_const
  compl := fun _ _ => by norm_num

/-! Helper lemmas about the embedded statistics. -/

theorem diffs_length (A B : List ℝ) : (diffs A B).length = min A.length B.length :=
  List.length_zipWith _ _ _

theorem ttest_rel_eq_ok (S : TDistSF) (A B : List ℝ) (hlen : A.length = B.length)
    (hn : 2 ≤ A.length) :
    ttest_rel S A B =
      Except.ok (tVal (diffs A B),
        pVal S ((diffs A B).length - 1) (tVal (diffs A B))) := by
  rw [ttest_rel, if_neg]
  push_neg
  exact ⟨hlen, by omega⟩

theorem ttest_1samp_eq_ok (S : TDistSF) (D : List ℝ) (ref : ℝ) (hn : 2 ≤ D.length) :
    ttest_1samp S D ref =
      Except.ok (specDiv (mean D - ref) (Real.sqrt (sampleVar D / (D.length : ℝ))),
        pVal S (D.length - 1)
          (specDiv (mean D - ref) (Real.sqrt (sampleVar D / (D.length : ℝ))))) := by
  rw [ttest_1samp, if_neg (by omega)]

theorem sampleVar_nonneg (D : List ℝ) (h : 1 ≤ D.length) : 0 ≤ sampleVar D := by
  apply div_nonneg
  · apply List.sum_nonneg
    intro x hx
    obtain ⟨y, _, rfl⟩ := List.mem_map.mp hx
    exact sq_nonneg _
  · have : (1 : ℝ) ≤ (D.length : ℝ) := by exact_mod_cast h
    linarith

theorem mean_congr_perm {D₁ D₂ : List ℝ} (h : D₁.Perm D₂) : mean D₁ = mean D₂ := by
  rw [mean, mean, h.sum_eq, h.length_eq]

theorem sampleVar_congr_perm {D₁ D₂ : List ℝ} (h : D₁.Perm D₂) :
    sampleVar D₁ = sampleVar D₂ := by
  rw [sampleVar, sampleVar, mean_congr_perm h, h.length_eq,
    (h.map (fun x => (x - mean D₂) ^ 2)).sum_eq]

theorem tVal_congr_perm {D₁ D₂ : List ℝ} (h : D₁.Perm D₂) : tVal D₁ = tVal D₂ := by
  rw [tVal, tVal, mean_congr_perm h, sampleVar_congr_perm h, h.length_eq]

theorem ttest_1samp_congr_perm (S : TDistSF) {D₁ D₂ : List ℝ} (h : D₁.Perm D₂)
    (ref : ℝ) : ttest_1samp S D₁ ref = ttest_1samp S D₂ ref := by
  rw [ttest_1samp, ttest_1samp, mean_congr_perm h, sampleVar_congr_perm h, h.length_eq]

theorem range_map_getD (A : List ℝ) :
    (List.range A.length).map (fun i => A.getD i 0) = A := by
  induction A with
  | nil => rfl
  | cons a as ih =>
    have h1 : ∀ i ∈ List.range as.length,
        ((fun i => (a :: as).getD i 0) ∘ Nat.succ) i = as.getD i 0 := fun i _ => by
      simp [Function.comp, List.getD_cons_succ]
    rw [List.length_cons, List.range_succ_eq_map, List.map_cons, List.map_map,
      List.map_congr_left h1, ih]
    all_goals simp [List.getD_cons_zero]

theorem applyPerm_perm (σ : List ℕ) (A : List ℝ) (h : σ.Perm (List.range A.length)) :
    (applyPerm σ A).Perm A := by
  have h2 := h.map (fun i => A.getD i 0)
  rwa [range_map_getD] at h2

theorem applyPerm_length (σ : List ℕ) (A : List ℝ) :
    (applyPerm σ A).length = σ.length :=
  List.length_map _ _

theorem getD_diffs (A B : List ℝ) (h : A.length = B.length) (i : ℕ) :
    A.getD i 0 - B.getD i 0 = (diffs A B).getD i 0 := by
  induction A generalizing B i with
  | nil =>
    cases B with
    | nil => simp [diffs]
    | cons b bs => simp at h
  | cons a as ih =>
    cases B with
    | nil => simp at h
    | cons b bs =>
      cases i with
      | zero => simp [diffs]
      | succ j =>
        simp only [List.getD_cons_succ]
        have hlen : as.length = bs.length := by
          simpa using h
        calc as.getD j 0 - bs.getD j 0 = (diffs as bs).getD j 0 := ih bs hlen j
          _ = (diffs (a :: as) (b :: bs)).getD (j + 1) 0 := by
              simp [diffs, List.getD_cons_succ]

theorem diffs_applyPerm (σ : List ℕ) (A B : List ℝ) (h : A.length = B.length) :
    diffs (applyPerm σ A) (applyPerm σ B) = applyPerm σ (diffs A B) := by
  induction σ with
  | nil => rfl
  | cons i σ ih =>
    simp only [applyPerm, List.map_cons] at ih ⊢
    rw [show diffs ((A.getD i 0) :: σ.map (fun j => A.getD j 0))
          ((B.getD i 0) :: σ.map (fun j => B.getD j 0)) =
        (A.getD i 0 - B.getD i 0) :: diffs (σ.map (fun j => A.getD j 0))
          (σ.map (fun j => B.getD j 0)) from rfl]
    rw [ih, getD_diffs A B h i]

theorem diffs_self (A : List ℝ) : diffs A A = List.replicate A.length 0 := by
  induction A with
  | nil => rfl
  | cons a as ih =>
    simp only [diffs, List.zipWith_cons_cons, sub_self, List.length_cons,
      List.replicate_succ] at ih ⊢
    rw [ih]

theorem mean_replicate_zero (n : ℕ) : mean (List.replicate n (0 : ℝ)) = 0 := by
  rw [mean, List.sum_replicate]
  simp

theorem sampleVar_replicate_zero (n : ℕ) : sampleVar (List.replicate n (0 : ℝ)) = 0 := by
  rw [sampleVar, mean_replicate_zero, List.map_replicate, List.sum_replicate]
  simp

theorem sum_map_neg (D : List ℝ) : (D.map (fun x => -x)).sum = -D.sum := by
  induction D with
  | nil => simp
  | cons a as ih =>
    simp only [List.map_cons, List.sum_cons, ih]
    ring

theorem mean_map_neg (D : List ℝ) : mean (D.map (fun x => -x)) = -mean D := by
  rw [mean, mean, sum_map_neg, List.length_map, neg_div]

theorem sampleVar_map_neg (D : List ℝ) : sampleVar (D.map (fun x => -x)) = sampleVar D := by
  rw [sampleVar, sampleVar, mean_map_neg, List.length_map, List.map_map]
  congr 2
  apply List.map_congr_left
  intro x _
  simp only [Function.comp]
  ring

theorem diffs_swap (A B : List ℝ) : diffs B A = (diffs A B).map (fun x => -x) := by
  induction A generalizing B with
  | nil => cases B <;> rfl
  | cons a as ih =>
    cases B with
    | nil => rfl
    | cons b bs =>
      simp only [diffs, List.zipWith_cons_cons, List.map_cons] at ih ⊢
      rw [show b - a = -(a - b) by ring]
      congr 1
      exact ih bs

theorem specDiv_neg (a b : ℝ) : specDiv (-a) b = negV (specDiv a b) := by
  rw [specDiv, specDiv]
  by_cases hb : b = 0
  · rw [if_pos hb, if_pos hb]
    rcases lt_trichotomy a 0 with h | h | h
    · rw [if_pos (by linarith : (0 : ℝ) < -a), if_neg (by linarith : ¬ (0 : ℝ) < a),
        if_pos h]
      rfl
    · subst h
      simp [negV]
    · rw [if_neg (by linarith : ¬ (0 : ℝ) < -a), if_pos (by linarith : -a < (0 : ℝ)),
        if_pos h]
      rfl
  · rw [if_neg hb, if_neg hb, neg_div]
    rfl

theorem pVal_negV (S : TDistSF) (df : ℕ) (t : RVal) :
    pVal S df (negV t) = pVal S df t := by
  cases t <;> simp [pVal, negV, abs_neg]

theorem tVal_map_neg (D : List ℝ) : tVal (D.map (fun x => -x)) = negV (tVal D) := by
  rw [tVal, tVal, mean_map_neg, sampleVar_map_neg, List.length_map]
  exact specDiv_neg _ _

theorem sqrt_eq_of_sq (x y : ℝ) (hy : 0 ≤ y) (h : y ^ 2 = x) : Real.sqrt x = y := by
  rw [← h, Real.sqrt_sq hy]

theorem sf_zero (S : TDistSF) (d : ℕ) : S.sf d 0 = 1 / 2 := by
  have h := S.compl d 0
  rw [neg_zero] at h
  linarith

theorem sf_le_half (S : TDistSF) (d : ℕ) (x : ℝ) (hx : 0 ≤ x) : S.sf d x ≤ 1 / 2 := by
  have h := S.anti d hx
  rwa [sf_zero] at h

theorem lookup_congr_perm {α β : Type} [BEq α] [LawfulBEq α] {l₁ l₂ : List (α × β)}
    (h : l₁.Perm l₂) :
    (l₂.map Prod.fst).Nodup → ∀ k, l₁.lookup k = l₂.lookup k := by
  induction h with
  | nil =>
    intro _ k
    rfl
  | cons x p ih =>
    intro nd k
    obtain ⟨xk, xv⟩ := x
    rw [List.map_cons, List.nodup_cons] at nd
    by_cases hx : k = xk
    · simp [List.lookup, hx]
    · simp [List.lookup, hx, ih nd.2 k]
  | swap x y l =>
    intro nd k
    obtain ⟨xk, xv⟩ := x
    obtain ⟨yk, yv⟩ := y
    rw [List.map_cons, List.map_cons, List.nodup_cons] at nd
    have hxy : xk ≠ yk := by
      intro e
      exact nd.1 (by simp [e])
    have hxyb : (xk == yk) = false := beq_eq_false_iff_ne.mpr hxy
    have hyxb : (yk == xk) = false := beq_eq_false_iff_ne.mpr (Ne.symm hxy)
    by_cases hx : k = xk
    · by_cases hy : k = yk
      · exact absurd (hx.symm.trans hy) hxy
      · subst hx
        simp [List.lookup, hxyb, hyxb]
    · by_cases hy : k = yk
      · subst hy
        simp [List.lookup, hxyb, hyxb]
      · have hkx : (k == xk) = false := beq_eq_false_iff_ne.mpr hx
        have hky : (k == yk) = false := beq_eq_false_iff_ne.mpr hy
        simp [List.lookup, hkx, hky]
  | trans p₁ p₂ ih₁ ih₂ =>
    intro nd k
    have nd₂ := ((p₂.map Prod.fst).nodup_iff).mpr nd
    rw [ih₁ nd₂ k, ih₂ nd k]

theorem alignedSub_congr_right (P : List (String × ℝ)) {Q Q' : List (String × ℝ)}
    (h : Q'.Perm Q) (nd : (Q.map Prod.fst).Nodup) :
    alignedSub P Q' = alignedSub P Q := by
  rw [alignedSub, alignedSub]
  apply List.map_congr_left
  intro kv _
  rw [lookup_congr_perm h nd kv.1]

theorem alignedSub_perm_left {P P' : List (String × ℝ)} (h : P'.Perm P)
    (Q : List (String × ℝ)) : (alignedSub P' Q).Perm (alignedSub P Q) :=
  h.map _

theorem ttest_rel_applyPerm (S : TDistSF) (σ : List ℕ) (A B : List ℝ)
    (hσ : σ.Perm (List.range A.length)) (hlen : A.length = B.length)
    (hn : 2 ≤ A.length) :
    ttest_rel S (applyPerm σ A) (applyPerm σ B) = ttest_rel S A B := by
  have hσB : σ.Perm (List.range B.length) := by
    rw [← hlen]
    exact hσ
  have hlen2 : (applyPerm σ A).length = (applyPerm σ B).length := by
    rw [applyPerm_length, applyPerm_length]
  have hlenσ : σ.length = A.length := by
    rw [hσ.length_eq, List.length_range]
  have hnA : 2 ≤ (applyPerm σ A).length := by
    rw [applyPerm_length, hlenσ]
    exact hn
  rw [ttest_rel_eq_ok S _ _ hlen2 hnA, ttest_rel_eq_ok S A B hlen hn,
    diffs_applyPerm σ A B hlen]
  have hperm : (applyPerm σ (diffs A B)).Perm (diffs A B) := by
    apply applyPerm_perm
    rw [diffs_length, hlen, min_self]
    exact hσB
  rw [tVal_congr_perm hperm, hperm.length_eq]

theorem specDiv_of_ne (a b : ℝ) (hb : b ≠ 0) : specDiv a b = RVal.fin (a / b) := by
  rw [specDiv, if_neg hb]

theorem tVal_of_var_zero (D : List ℝ) (hv : sampleVar D = 0) :
    tVal D = if 0 < mean D then RVal.pinf
      else if mean D < 0 then RVal.ninf else RVal.nan := by
  rw [tVal, hv, zero_div, Real.sqrt_zero, specDiv, if_pos rfl]

theorem mean_pair (a b : ℝ) : mean [a, b] = (a + b) / 2 := by
  rw [mean]
  norm_num

theorem sampleVar_pair (a b : ℝ) : sampleVar [a, b] = (a - b) ^ 2 / 2 := by
  rw [sampleVar, mean_pair]
  simp [List.sum_cons, List.sum_nil]
  ring

theorem tVal_pair (a b : ℝ) : tVal [a, b] = specDiv ((a + b) / 2) (|a - b| / 2) := by
  rw [tVal, mean_pair, sampleVar_pair]
  congr 1
  have h : (a - b) ^ 2 / 2 / ((([a, b] : List ℝ).length : ℝ)) = ((a - b) / 2) ^ 2 := by
    simp
    ring
  rw [h, Real.sqrt_sq_eq_abs, abs_div]
  norm_num

theorem pVal_bounds (S : TDistSF) (df : ℕ) (t : RVal) :
    pVal S df t = RVal.nan ∨ ∃ q, pVal S df t = RVal.fin q ∧ 0 ≤ q ∧ q ≤ 1 := by
  cases t with
  | fin x =>
    right
    refine ⟨2 * S.sf df |x|, rfl, ?_, ?_⟩
    · have h := S.nonneg df |x|
      linarith
    · have h := sf_le_half S df |x| (abs_nonneg x)
      linarith
  | pinf => exact Or.inr ⟨0, rfl, le_refl 0, by norm_num⟩
  | ninf => exact Or.inr ⟨0, rfl, le_refl 0, by norm_num⟩
  | nan => exact Or.inl rfl

theorem diffs_length_left (A B : List ℝ) (hlen : A.length = B.length) :
    (diffs A B).length = A.length := by
  rw [diffs_length, ← hlen, min_self]

/-! Claim theorems. -/

/-- Claim C1: for every pair of equal-length sequences `A` and `B` with at
least two matched observations, the two-sample paired procedure on `(A, B)`
returns exactly the same (statistic, probability) pair as the one-sample
procedure on the elementwise difference sequence against a reference value
of zero.  The results are proved identical, which in particular puts them
within any relative tolerance, including 1e-9. -/
theorem C1_paired_eq_one_sample_on_diffs (S : TDistSF) (A B : List ℝ)
    (hlen : A.length = B.length) (hn : 2 ≤ A.length) :
    ttest_rel S A B = ttest_1samp S (diffs A B) 0 := by
  have hD : (diffs A B).length = A.length := diffs_length_left A B hlen
  rw [ttest_rel_eq_ok S A B hlen hn,
    ttest_1samp_eq_ok S (diffs A B) 0 (by rw [hD]; exact hn), sub_zero, tVal]

/-- Witness for C1 at a concrete paired sample of two observations. -/
theorem C1_witness :
    ttest_rel trivSF [0, 1] [0, 0] = ttest_1samp trivSF (diffs [0, 1] [0, 0]) 0 :=
  C1_paired_eq_one_sample_on_diffs trivSF [0, 1] [0, 0] rfl (by simp)

/-- Claim C2: for every paired sample with at least two observations, the
returned statistic equals `mean(D)` divided by `stddev(D) / sqrt(n)`, where
`stddev(D)` is the square root of the Bessel-corrected sample variance (sum
of squared deviations divided by `n - 1`), with IEEE division semantics. -/
theorem C2_statistic_bessel_formula (S : TDistSF) (A B : List ℝ)
    (hlen : A.length = B.length) (hn : 2 ≤ A.length) :
    ∃ p, ttest_rel S A B = Except.ok (specDiv (mean (diffs A B))
      (Real.sqrt (sampleVar (diffs A B)) /
        Real.sqrt (((diffs A B).length : ℝ))), p) := by
  have hD : (diffs A B).length = A.length := diffs_length_left A B hlen
  have hv0 : 0 ≤ sampleVar (diffs A B) := sampleVar_nonneg _ (by rw [hD]; omega)
  refine ⟨pVal S ((diffs A B).length - 1) (tVal (diffs A B)), ?_⟩
  rw [ttest_rel_eq_ok S A B hlen hn]
  rw [show tVal (diffs A B) = specDiv (mean (diffs A B))
      (Real.sqrt (sampleVar (diffs A B)) / Real.sqrt (((diffs A B).length : ℝ)))
    from by rw [tVal, Real.sqrt_div hv0]]

/-- Witness for C2 at a concrete paired sample of two observations. -/
theorem C2_witness :
    ∃ p, ttest_rel trivSF [0, 1] [2, 3] = Except.ok
      (specDiv (mean (diffs [0, 1] [2, 3]))
        (Real.sqrt (sampleVar (diffs [0, 1] [2, 3])) /
          Real.sqrt (((diffs [0, 1] [2, 3]).length : ℝ))), p) :=
  C2_statistic_bessel_formula trivSF [0, 1] [2, 3] rfl (by simp)

/-- Claim C3: for every paired sample with at least two observations whose
difference sequence has nonzero sample variance (so that the statistic is a
real number), the returned probability is the two-tailed probability
`2 * P(T > |t|)` of the Student-t survival function at `df = n - 1`, and the
corresponding one-tailed probability is exactly half of it. -/
theorem C3_two_tailed_probability (S : TDistSF) (A B : List ℝ)
    (hlen : A.length = B.length) (hn : 2 ≤ A.length)
    (hv : sampleVar (diffs A B) ≠ 0) :
    ∃ t q, ttest_rel S A B = Except.ok (RVal.fin t, RVal.fin q) ∧
      q = 2 * S.sf (A.length - 1) |t| ∧ q / 2 = S.sf (A.length - 1) |t| := by
  have hD : (diffs A B).length = A.length := diffs_length_left A B hlen
  have hv0 : 0 ≤ sampleVar (diffs A B) := sampleVar_nonneg _ (by rw [hD]; omega)
  have hvpos : 0 < sampleVar (diffs A B) := lt_of_le_of_ne hv0 (Ne.symm hv)
  have hnpos : (0 : ℝ) < (((diffs A B).length : ℝ)) := by
    rw [hD]
    exact_mod_cast (by omega : 0 < A.length)
  have hs : 0 < Real.sqrt (sampleVar (diffs A B) / ((diffs A B).length : ℝ)) :=
    Real.sqrt_pos.mpr (div_pos hvpos hnpos)
  refine ⟨mean (diffs A B) /
      Real.sqrt (sampleVar (diffs A B) / ((diffs A B).length : ℝ)),
    2 * S.sf (A.length - 1) |mean (diffs A B) /
      Real.sqrt (sampleVar (diffs A B) / ((diffs A B).length : ℝ))|,
    ?_, rfl, by ring⟩
  rw [ttest_rel_eq_ok S A B hlen hn, tVal, specDiv_of_ne _ _ (ne_of_gt hs), hD]
  simp [pVal]

/-- Witness for C3 at a concrete paired sample with nonzero variance of the
differences. -/
theorem C3_witness :
    ∃ t q, ttest_rel trivSF [0, 1] [0, 0] = Except.ok (RVal.fin t, RVal.fin q) ∧
      q = 2 * trivSF.sf (([0, 1] : List ℝ).length - 1) |t| ∧
      q / 2 = trivSF.sf (([0, 1] : List ℝ).length - 1) |t| :=
  C3_two_tailed_probability trivSF [0, 1] [0, 0] rfl (by simp)
    (by rw [show diffs [0, 1] [0, 0] = [(0 : ℝ), 1] from by norm_num [diffs],
          sampleVar_pair]
        norm_num)

/-- Claim C5: the two-sample procedure fails with `InvalidInput` exactly when
the input lengths differ or there are fewer than two observations; in
particular a single-observation input fails rather than returning a
result. -/
theorem C5_invalid_input_iff (S : TDistSF) (A B : List ℝ) :
    (ttest_rel S A B = Except.error TTestError.invalidInput ↔
      A.length ≠ B.length ∨ A.length < 2) ∧
    (A.length = 1 → ttest_rel S A B = Except.error TTestError.invalidInput) := by
  constructor
  · constructor
    · intro h
      by_cases hc : A.length ≠ B.length ∨ A.length < 2
      · exact hc
      · rw [ttest_rel, if_neg hc] at h
        simp at h
    · intro h
      rw [ttest_rel, if_pos h]
  · intro h
    rw [ttest_rel, if_pos (Or.inr (by omega))]

/-- Witness for C5: a single-observation input is rejected. -/
theorem C5_witness :
    ttest_rel trivSF [(1 : ℝ)] [2] = Except.error TTestError.invalidInput :=
  (C5_invalid_input_iff trivSF [(1 : ℝ)] [2]).2 rfl

/-- Claim C6: for a valid paired sample whose difference sequence has zero
sample variance, the procedure does not raise: if the mean difference is
nonzero it returns the matching signed-infinity sentinel with probability
zero, and if the mean difference is zero it returns NaN for both statistic
and probability, never a finite spurious significance. -/
theorem C6_zero_variance_sentinels (S : TDistSF) (A B : List ℝ)
    (hlen : A.length = B.length) (hn : 2 ≤ A.length)
    (hv : sampleVar (diffs A B) = 0) :
    (0 < mean (diffs A B) →
      ttest_rel S A B = Except.ok (RVal.pinf, RVal.fin 0)) ∧
    (mean (diffs A B) < 0 →
      ttest_rel S A B = Except.ok (RVal.ninf, RVal.fin 0)) ∧
    (mean (diffs A B) = 0 →
      ttest_rel S A B = Except.ok (RVal.nan, RVal.nan)) := by
  rw [ttest_rel_eq_ok S A B hlen hn, tVal_of_var_zero _ hv]
  refine ⟨?_, ?_, ?_⟩ <;> intro h
  · rw [if_pos h]
    simp [pVal]
  · rw [if_neg (by linarith), if_pos h]
    simp [pVal]
  · rw [if_neg (by linarith), if_neg (by linarith)]
    simp [pVal]

/-- Witness for C6 at a concrete sample with constant positive differences. -/
theorem C6_witness :
    ttest_rel trivSF [1, 2] [0, 1] = Except.ok (RVal.pinf, RVal.fin 0) := by
  have hd : diffs [1, 2] [0, 1] = [(1 : ℝ), 1] := by norm_num [diffs]
  refine (C6_zero_variance_sentinels trivSF [1, 2] [0, 1] rfl (by simp) ?_).1 ?_
  · rw [hd, sampleVar_pair]
    norm_num
  · rw [hd, mean_pair]
    norm_num

/-- Claim C7: swapping the roles of the two sequences negates the statistic
(with signed infinities swapped and NaN fixed) and leaves the probability
unchanged. -/
theorem C7_swap_negates_statistic (S : TDistSF) (A B : List ℝ)
    (hlen : A.length = B.length) (hn : 2 ≤ A.length) :
    ∃ t p, ttest_rel S A B = Except.ok (t, p) ∧
      ttest_rel S B A = Except.ok (negV t, p) := by
  refine ⟨tVal (diffs A B), pVal S ((diffs A B).length - 1) (tVal (diffs A B)),
    ttest_rel_eq_ok S A B hlen hn, ?_⟩
  rw [ttest_rel_eq_ok S B A hlen.symm (by omega), diffs_swap A B, tVal_map_neg,
    pVal_negV, List.length_map]

/-- Witness for C7 at a concrete paired sample. -/
theorem C7_witness :
    ∃ t p, ttest_rel trivSF [0, 1] [2, 3] = Except.ok (t, p) ∧
      ttest_rel trivSF [2, 3] [0, 1] = Except.ok (negV t, p) :=
  C7_swap_negates_statistic trivSF [0, 1] [2, 3] rfl (by simp)

/-- Claim C8: running the paired procedure with both sequences identical
(so every difference is zero) yields the NaN statistic and NaN probability,
which is among the outcomes the claim allows (statistic 0 or NaN,
probability 1 or NaN). -/
theorem C8_identical_pairs_nan (S : TDistSF) (A : List ℝ) (hn : 2 ≤ A.length) :
    ttest_rel S A A = Except.ok (RVal.nan, RVal.nan) := by
  rw [ttest_rel_eq_ok S A A rfl hn, diffs_self,
    tVal_of_var_zero _ (sampleVar_replicate_zero _), mean_replicate_zero]
  simp [pVal]

/-- Witness for C8 at a concrete sequence. -/
theorem C8_witness :
    ttest_rel trivSF [1, 2] [1, 2] = Except.ok (RVal.nan, RVal.nan) :=
  C8_identical_pairs_nan trivSF [1, 2] (by simp)

/-- Claim C9: on every valid input, the probability component returned by
either entry point is NaN (degenerate case only) or a real number in the
closed interval `[0, 1]`. -/
theorem C9_probability_in_unit_interval (S : TDistSF) (A B D : List ℝ) (r : ℝ)
    (hlen : A.length = B.length) (hn : 2 ≤ A.length) (hnD : 2 ≤ D.length) :
    (∃ t p, ttest_rel S A B = Except.ok (t, p) ∧
      (p = RVal.nan ∨ ∃ q, p = RVal.fin q ∧ 0 ≤ q ∧ q ≤ 1)) ∧
    (∃ t p, ttest_1samp S D r = Except.ok (t, p) ∧
      (p = RVal.nan ∨ ∃ q, p = RVal.fin q ∧ 0 ≤ q ∧ q ≤ 1)) := by
  constructor
  · exact ⟨_, _, ttest_rel_eq_ok S A B hlen hn, pVal_bounds S _ _⟩
  · exact ⟨_, _, ttest_1samp_eq_ok S D r hnD, pVal_bounds S _ _⟩

/-- Witness for C9 at concrete inputs to both entry points. -/
theorem C9_witness :
    (∃ t p, ttest_rel trivSF [0, 1] [2, 3] = Except.ok (t, p) ∧
      (p = RVal.nan ∨ ∃ q, p = RVal.fin q ∧ 0 ≤ q ∧ q ≤ 1)) ∧
    (∃ t p, ttest_1samp trivSF [4, 5] 0 = Except.ok (t, p) ∧
      (p = RVal.nan ∨ ∃ q, p = RVal.fin q ∧ 0 ≤ q ∧ q ≤ 1)) :=
  C9_probability_in_unit_interval trivSF [0, 1] [2, 3] [4, 5] 0 rfl (by simp)
    (by simp)

/-- Counterexample to claim C4 as stated: the claim asserts that applying a
permutation to only one of the two sequences always changes the result, but
the nonidentity permutation `[1, 0, 2]` applied only to the second sequence
`[1, 1, 2]` (whose first two values are equal) leaves the sequence — and
hence the result — unchanged. -/
theorem C4_counterexample :
    ([1, 0, 2] : List ℕ).Perm (List.range 3) ∧
    ttest_rel trivSF [1, 1, 2] (applyPerm [1, 0, 2] [1, 1, 2]) =
      ttest_rel trivSF [1, 1, 2] [1, 1, 2] := by
  constructor
  · decide
  · have h : applyPerm [1, 0, 2] ([1, 1, 2] : List ℝ) = [1, 1, 2] := rfl
    rw [h]

/-- Claim C4 (amended): applying the same permutation to both sequences of a
valid paired sample leaves the result unchanged; applying a permutation to
only one of them can change the result (witnessed by a concrete shuffle, as
in the notebook) though not for every permutation and sample; and the
misaligned call still returns a normal result rather than raising any
error. -/
theorem C4_amended_alignment_invariant (S : TDistSF) (A B : List ℝ)
    (σ : List ℕ) (hσ : σ.Perm (List.range A.length))
    (hlen : A.length = B.length) (hn : 2 ≤ A.length) :
    ttest_rel S (applyPerm σ A) (applyPerm σ B) = ttest_rel S A B ∧
    ttest_rel S [0, 1] (applyPerm [1, 0] [0, 2]) ≠ ttest_rel S [0, 1] [0, 2] ∧
    (∃ r, ttest_rel S [0, 1] (applyPerm [1, 0] [0, 2]) = Except.ok r) := by
  have hap : applyPerm [1, 0] ([0, 2] : List ℝ) = [2, 0] := rfl
  have hd1 : diffs [0, 1] [2, 0] = [(-2 : ℝ), 1] := by norm_num [diffs]
  have hd2 : diffs [0, 1] [0, 2] = [(0 : ℝ), -1] := by norm_num [diffs]
  have ht1 : tVal [(-2 : ℝ), 1] = RVal.fin (-(1 / 3)) := by
    rw [tVal_pair]
    have e1 : ((-2 : ℝ) + 1) / 2 = -(1 / 2) := by norm_num
    have e2 : |(-2 : ℝ) - 1| / 2 = 3 / 2 := by
      rw [show (-2 : ℝ) - 1 = -3 by norm_num, abs_neg,
        abs_of_nonneg (by norm_num : (0 : ℝ) ≤ 3)]
    rw [e1, e2, specDiv_of_ne _ _ (by norm_num)]
    norm_num
  have ht2 : tVal [(0 : ℝ), -1] = RVal.fin (-1) := by
    rw [tVal_pair]
    have e1 : ((0 : ℝ) + -1) / 2 = -(1 / 2) := by norm_num
    have e2 : |(0 : ℝ) - -1| / 2 = 1 / 2 := by norm_num
    rw [e1, e2, specDiv_of_ne _ _ (by norm_num)]
    norm_num
  have h1 : ttest_rel S [0, 1] [2, 0] =
      Except.ok (RVal.fin (-(1 / 3)), pVal S 1 (RVal.fin (-(1 / 3)))) := by
    rw [ttest_rel_eq_ok S [0, 1] [2, 0] rfl (by simp), hd1, ht1]
    simp
  have h2 : ttest_rel S [0, 1] [0, 2] =
      Except.ok (RVal.fin (-1), pVal S 1 (RVal.fin (-1))) := by
    rw [ttest_rel_eq_ok S [0, 1] [0, 2] rfl (by simp), hd2, ht2]
    simp
  refine ⟨ttest_rel_applyPerm S σ A B hσ hlen hn, ?_, ?_⟩
  · rw [hap, h1, h2]
    intro hc
    simp only [Except.ok.injEq, Prod.mk.injEq, RVal.fin.injEq] at hc
    have h3 := hc.1
    norm_num at h3
  · rw [hap, h1]
    exact ⟨_, rfl⟩

/-- Witness for the amended C4 at a concrete sample and permutation. -/
theorem C4_witness :
    ttest_rel trivSF (applyPerm [1, 0] [3, 4]) (applyPerm [1, 0] [5, 6]) =
      ttest_rel trivSF [3, 4] [5, 6] ∧
    ttest_rel trivSF [0, 1] (applyPerm [1, 0] [0, 2]) ≠
      ttest_rel trivSF [0, 1] [0, 2] ∧
    (∃ r, ttest_rel trivSF [0, 1] (applyPerm [1, 0] [0, 2]) = Except.ok r) :=
  C4_amended_alignment_invariant trivSF [3, 4] [5, 6] [1, 0] (by decide) rfl
    (by simp)

/-- Claim C10: when two keyed series are related by row permutations that
preserve the key-to-value association, the identifier-aligned subtraction
feeding the one-sample entry point gives the same (statistic, probability)
result regardless of row order of either input, whereas the two-sample
paired entry point ignores the keys and is order-sensitive (witnessed on
concrete data). -/
theorem C10_keyed_subtraction_alignment (S : TDistSF)
    (P P' Q Q' : List (String × ℝ)) (hP : P'.Perm P) (hQ : Q'.Perm Q)
    (nd : (Q.map Prod.fst).Nodup) :
    ttest_1samp S (alignedSub P' Q') 0 = ttest_1samp S (alignedSub P Q) 0 ∧
    ttest_rel S [0, 2] [4, 0] ≠ ttest_rel S [0, 2] [0, 4] := by
  constructor
  · rw [alignedSub_congr_right P' hQ nd]
    exact ttest_1samp_congr_perm S (alignedSub_perm_left hP Q) 0
  · have hd1 : diffs [0, 2] [4, 0] = [(-4 : ℝ), 2] := by norm_num [diffs]
    have hd2 : diffs [0, 2] [0, 4] = [(0 : ℝ), -2] := by norm_num [diffs]
    have ht1 : tVal [(-4 : ℝ), 2] = RVal.fin (-(1 / 3)) := by
      rw [tVal_pair]
      have e1 : ((-4 : ℝ) + 2) / 2 = -1 := by norm_num
      have e2 : |(-4 : ℝ) - 2| / 2 = 3 := by
        rw [show (-4 : ℝ) - 2 = -6 by norm_num, abs_neg,
          abs_of_nonneg (by norm_num : (0 : ℝ) ≤ 6)]
        norm_num
      rw [e1, e2, specDiv_of_ne _ _ (by norm_num)]
      norm_num
    have ht2 : tVal [(0 : ℝ), -2] = RVal.fin (-1) := by
      rw [tVal_pair]
      have e1 : ((0 : ℝ) + -2) / 2 = -1 := by norm_num
      have e2 : |(0 : ℝ) - -2| / 2 = 1 := by norm_num
      rw [e1, e2, specDiv_of_ne _ _ (by norm_num)]
      norm_num
    have h1 : ttest_rel S [0, 2] [4, 0] =
        Except.ok (RVal.fin (-(1 / 3)), pVal S 1 (RVal.fin (-(1 / 3)))) := by
      rw [ttest_rel_eq_ok S [0, 2] [4, 0] rfl (by simp), hd1, ht1]
      simp
    have h2 : ttest_rel S [0, 2] [0, 4] =
        Except.ok (RVal.fin (-1), pVal S 1 (RVal.fin (-1))) := by
      rw [ttest_rel_eq_ok S [0, 2] [0, 4] rfl (by simp), hd2, ht2]
      simp
    rw [h1, h2]
    intro hc
    simp only [Except.ok.injEq, Prod.mk.injEq, RVal.fin.injEq] at hc
    have h3 := hc.1
    norm_num at h3

/-- Witness for C10 at concrete keyed series mirroring the notebook's
shuffled `incongr2`. -/
theorem C10_witness :
    ttest_1samp trivSF
        (alignedSub [("s2", 2), ("s1", 0)] [("s2", 4), ("s1", 0)]) 0 =
      ttest_1samp trivSF
        (alignedSub [("s1", 0), ("s2", 2)] [("s1", 0), ("s2", 4)]) 0 ∧
    ttest_rel trivSF [0, 2] [4, 0] ≠ ttest_rel trivSF [0, 2] [0, 4] :=
  C10_keyed_subtraction_alignment trivSF [("s1", 0), ("s2", 2)]
    [("s2", 2), ("s1", 0)] [("s1", 0), ("s2", 4)] [("s2", 4), ("s1", 0)]
    (List.Perm.swap ("s1", 0) ("s2", 2) [])
    (List.Perm.swap ("s1", 0) ("s2", 4) [])
    (by simp)

end TTest
